import Mathlib

/-!
Verification of the AutoDocstring core (`auto_docstring.py`) against its
natural-language specification.

The development shallowly embeds the plugin's pure text algorithms:
the Sublime buffer is a `List Char` with integer positions, the host
(Sublime) primitives used by the code (`view.line`, `view.substr`,
`view.find` for the handful of fixed patterns, `view.rowcol`,
`view.replace`) are modelled directly over that buffer, and the host's
structural-indentation query is an oracle field of the view.  Fallible
paths (Python exceptions) are modelled with `Except`.  Sublime buffers
use "\n" as the line separator (the editor normalizes line endings on
load), so line splitting is modelled on '\n'.
-/

/-- Python's `string.whitespace` character set. -/
def pyWhitespace : List Char := [' ', '\t', '\n', '\r', Char.ofNat 11, Char.ofNat 12]

/-- `c in string.whitespace`. -/
def isPyWs (c : Char) : Bool := pyWhitespace.contains c

/-- Python `str.lower()` restricted to the ASCII range (`Char.toLower`),
character by character.  (Defined over the character list so that it
evaluates by kernel reduction.) -/
def pyLower (s : String) : String := String.mk (s.data.map Char.toLower)

/-- Python `s.startswith(pre)` (defined over the character lists so that
it evaluates by kernel reduction). -/
def pyStartsWith (s pre : String) : Bool := pre.data.isPrefixOf s.data

/-- Python `s.split("_")` (the separator is a single character here). -/
def pySplitUnderscore (s : String) : List String :=
  (List.splitOn '_' s.data).map String.mk

/-- Left brace character (written by code point to keep literals plain). -/
def lbraceChar : Char := Char.ofNat 123

/-- Right brace character. -/
def rbraceChar : Char := Char.ofNat 125

/-- Single-quote character. -/
def squoteChar : Char := Char.ofNat 39

/-! ## Parameter model

`docstring_styles.Parameter` is not under `src/`; only its constructor
call `Parameter([name], paramtype, default_description, tag=i)` is.
Modelled from the spec: a `Parameter` is a record of the name list, the
optional type string, the description text and the order-index tag that
`parse_function_params` passes to the constructor. -/
structure Parameter where
  names : List String
  types : Option String
  description : String
  tag : Nat
deriving DecidableEq, Repr

/-- AST node of a default-value expression as produced by Python's `ast`
module for the Python versions the plugin targets (2.6-3.4 node classes:
`Num`, `NameConstant`, `Name`, and any other node identified by its class
name).  The `ast` module is an external stdlib collaborator of
`parse_function_params`. -/
inductive PyExpr where
  /-- numeric literal; `cls` is the runtime class name of its value
      (`"int"`, `"float"`, ...) -/
  | num (cls : String)
  /-- `None` / `True` / `False` on Python 3.4 -/
  | nameConstant (val : Option Bool)
  /-- a plain identifier (also `True` / `False` on Python 2) -/
  | name (id : String)
  /-- any other expression node; `kind` is its class name -/
  | other (kind : String)
deriving DecidableEq, Repr

/-- `default.__class__.__name__` for an ast node. -/
def PyExpr.className : PyExpr → String
  | .num _ => "Num"
  | .nameConstant _ => "NameConstant"
  | .name _ => "Name"
  | .other kind => kind

/-- One slot of the `defaults` list assembled by `parse_function_params`
(line 377 and the variadic appends): either the preconditioned
`default_type` snippet string, Python `None` (appended for variadics), or
an ast default node. -/
inductive DefaultSlot where
  | dstr
  | pyNone
  | ast (e : PyExpr)
deriving DecidableEq, Repr

/-- The `paramtype` if/elif chain of `parse_function_params`
(auto_docstring.py lines 397-415), before the optional-tag suffix.
`none` models Python `None`. -/
def derive_paramtype (default_type : String) : DefaultSlot → Option String
  | .pyNone => none
  | .dstr => some default_type
  | .ast (.nameConstant none) => some default_type
  | .ast (.nameConstant (some _)) => some "bool"
  | .ast (.name id) =>
      if id = "True" ∨ id = "False" then some "bool" else some default_type
  | .ast (.num cls) => some cls
  | .ast (.other kind) => some (pyLower kind)

/-- `OrderedDict` assignment `params[name] = param`: replace in place if the
key exists, else append. -/
def odInsert (k : String) (p : Parameter) :
    List (String × Parameter) → List (String × Parameter)
  | [] => [(k, p)]
  | (k', p') :: rest =>
      if k' = k then (k, p) :: rest else (k', p') :: odInsert k p rest

/-- The fill loop of `parse_function_params` (lines 395-421):
`for i, name, default in zip(count(), arg_ids, defaults)`.  Appending the
optional tag to a `None` paramtype would be a Python `TypeError`; that is
the `Except.error` case. -/
def fill_params_go (default_type default_description optional_tag : String)
    (kb ke : Nat) :
    Nat → List String → List DefaultSlot → List (String × Parameter) →
    Except String (List (String × Parameter))
  | _, [], _, acc => .ok acc
  | _, _ :: _, [], acc => .ok acc
  | i, nm :: names, d :: ds, acc =>
      let base := derive_paramtype default_type d
      match (if kb ≤ i ∧ i < ke ∧ optional_tag ≠ "" then
          match base with
          | some t => Except.ok (some (t ++ ", " ++ optional_tag))
          | none => Except.error "TypeError: unsupported operand type(s)"
        else Except.ok base) with
      | .error e => .error e
      | .ok ptype =>
          fill_params_go default_type default_description optional_tag kb ke
            (i + 1) names ds
            (odInsert nm ⟨[nm], ptype, default_description, i⟩ acc)

/-- The name appended for a variadic argument (`"*{0}".format(name)` /
`"**{0}".format(name)`), as a list: empty when the argument is absent. -/
def optName (pre : String) : Option String → List String
  | some n => [pre ++ n]
  | none => []

/-- The `None` default appended alongside a variadic argument. -/
def optSlot : Option String → List DefaultSlot
  | some _ => [DefaultSlot.pyNone]
  | none => []

/-- `parse_function_params` after the self/cls drop (lines 374-423): align
defaults with keyword arguments, append the variadics, then fill the
ordered dict. -/
def fill_params (arg_ids0 : List String) (default_nodes : List PyExpr)
    (vararg kwarg : Option String)
    (default_type default_description optional_tag : String) :
    Except String (List (String × Parameter)) :=
  let kwargs_begin := arg_ids0.length - default_nodes.length
  let kwargs_end := arg_ids0.length
  let defaults0 := List.replicate kwargs_begin DefaultSlot.dstr ++
    default_nodes.map DefaultSlot.ast
  let arg_ids2 := arg_ids0 ++ optName "*" vararg ++ optName "**" kwarg
  let defaults2 := defaults0 ++ optSlot vararg ++ optSlot kwarg
  fill_params_go default_type default_description optional_tag
    kwargs_begin kwargs_end 0 arg_ids2 defaults2 []

/-- The snippet preconditioning of lines 356-357:
`r"${{NUMBER:{0}}}".format(s)`. -/
def snippet_ph (s : String) : String :=
  "$" ++ String.mk [lbraceChar] ++ "NUMBER:" ++ s ++ String.mk [rbraceChar]

/-- The lambda argument structure the code reads off
`ast.parse("lambda {s}: None")`: positional argument names, default nodes
(aligned to the last arguments), and the variadic / double-variadic
names. -/
structure PyArgs where
  args : List String
  defaults : List PyExpr
  vararg : Option String
  kwarg : Option String
deriving DecidableEq, Repr

/-- `parse_function_params` from the ast onward (lines 355-423):
precondition the type/description snippets, drop a leading `self`/`cls`
(popping its default only when every parameter has one), then fill the
parameter dict. -/
def parse_function_params_ast (a : PyArgs)
    (default_type default_description optional_tag : String) :
    Except String (List (String × Parameter)) :=
  let dt := snippet_ph default_type
  let dd := snippet_ph default_description
  let dropped : List String × List PyExpr :=
    match a.args with
    | first :: rest =>
        if first = "self" ∨ first = "cls" then
          (rest,
           if a.defaults.length = a.args.length then a.defaults.tail
           else a.defaults)
        else (a.args, a.defaults)
    | [] => (a.args, a.defaults)
  fill_params dropped.1 dropped.2 a.vararg a.kwarg dt dd optional_tag

/-! ### A small concrete-syntax front end

`parse_function_params` feeds the raw parameter text to
`ast.parse("lambda {s}: None")`.  The `ast` module is external stdlib; it
is modelled here for the simple parameter grammar this development
exercises: comma-separated pieces, `name`, `name=default` with a literal
or identifier default, `*name`, `**name`.  Anything outside that grammar
is a parse failure, as a lambda syntax error would be. -/

/-- Strip Python whitespace from both ends. -/
def trimChars (l : List Char) : List Char :=
  ((l.dropWhile isPyWs).reverse.dropWhile isPyWs).reverse

/-- Split on top-level commas, tracking bracket depth. -/
def splitTopAux : List Char → Nat → List Char → List (List Char)
  | [], _, cur => [cur.reverse]
  | c :: rest, depth, cur =>
      if c = ',' ∧ depth = 0 then cur.reverse :: splitTopAux rest 0 []
      else
        let depth' :=
          if c = '(' ∨ c = '[' ∨ c = lbraceChar then depth + 1
          else if c = ')' ∨ c = ']' ∨ c = rbraceChar then depth - 1
          else depth
        splitTopAux rest depth' (c :: cur)

def splitTop (l : List Char) : List (List Char) := splitTopAux l 0 []

def isIdentStart (c : Char) : Bool := c.isAlpha ∨ c = '_'

def isIdentChar (c : Char) : Bool := c.isAlphanum ∨ c = '_'

def isIdent : List Char → Bool
  | [] => false
  | c :: rest => isIdentStart c && rest.all isIdentChar

/-- Classify a default-expression text into the ast node `ast.parse` would
produce for it (Python ≤ 3.4 classes); `none` for anything outside the
modelled grammar. -/
def classify_default (l : List Char) : Option PyExpr :=
  let s := String.mk l
  if s = "None" then some (.nameConstant none)
  else if s = "True" then some (.nameConstant (some true))
  else if s = "False" then some (.nameConstant (some false))
  else if l ≠ [] ∧ l.all Char.isDigit then some (.num "int")
  else if l.any Char.isDigit ∧ l.all (fun c => c.isDigit ∨ c = '.') then
    some (.num "float")
  else if isIdent l then some (.name s)
  else none

/-- Split a piece at its first top-level `=`. -/
def splitEq : List Char → Option (List Char × List Char)
  | [] => none
  | c :: rest =>
      if c = '=' then some ([], rest)
      else (splitEq rest).map (fun p => (c :: p.1, p.2))

/-- Process one comma-separated piece of the parameter list. -/
def parse_piece (st : PyArgs) (piece : List Char) : Option PyArgs :=
  match trimChars piece with
  | '*' :: '*' :: nmRaw =>
      let nm := trimChars nmRaw
      if isIdent nm ∧ st.kwarg = none then
        some { st with kwarg := some (String.mk nm) }
      else none
  | '*' :: nmRaw =>
      let nm := trimChars nmRaw
      if isIdent nm ∧ st.vararg = none ∧ st.kwarg = none then
        some { st with vararg := some (String.mk nm) }
      else none
  | piece' =>
      if st.vararg ≠ none ∨ st.kwarg ≠ none then none
      else
        match splitEq piece' with
        | some (nmRaw, defRaw) =>
            let nm := trimChars nmRaw
            match classify_default (trimChars defRaw) with
            | some e =>
                if isIdent nm then
                  some { st with args := st.args ++ [String.mk nm],
                                 defaults := st.defaults ++ [e] }
                else none
            | none => none
        | none =>
            let nm := trimChars piece'
            if isIdent nm ∧ st.defaults = [] then
              some { st with args := st.args ++ [String.mk nm] }
            else none

def parse_lambda_args_go : List (List Char) → PyArgs → Option PyArgs
  | [], st => some st
  | p :: ps, st =>
      match parse_piece st p with
      | some st' => parse_lambda_args_go ps st'
      | none => none

/-- Models `ast.parse("lambda {s}: None").body.args` for the modelled
parameter grammar. -/
def parse_lambda_args (l : List Char) : Option PyArgs :=
  if trimChars l = [] then some ⟨[], [], none, none⟩
  else parse_lambda_args_go (splitTop l) ⟨[], [], none, none⟩

/-- `s.replace("\r\n", "").replace("\n", "")` (lines 360-361). -/
def stripNewlines : List Char → List Char
  | [] => []
  | '\r' :: '\n' :: rest => stripNewlines rest
  | '\n' :: rest => stripNewlines rest
  | c :: rest => c :: stripNewlines rest

/-- `parse_function_params` (auto_docstring.py lines 336-423), string-level
entry point.  A failed lambda parse is the `SyntaxError` Python would
raise out of `ast.parse`. -/
def parse_function_params (s : String)
    (default_type default_description optional_tag : String) :
    Except String (List (String × Parameter)) :=
  match parse_lambda_args (stripNewlines s.data) with
  | none => .error "SyntaxError"
  | some a => parse_function_params_ast a default_type default_description optional_tag

/-! ### Spec-side definitions for claims C2-C3 -/

/-- C3's type-derivation rule exactly as the claim states it: no default →
no type; default `None` → placeholder; boolean literal → `bool`; numeric
literal → runtime class name; any other default expression → lowercased
name of its syntactic node kind. -/
def c3_claimed_derive (placeholder : String) : Option PyExpr → Option String
  | none => none
  | some (.nameConstant none) => some placeholder
  | some (.nameConstant (some _)) => some "bool"
  | some (.name id) =>
      if id = "True" ∨ id = "False" then some "bool"
      else some (pyLower (PyExpr.name id).className)
  | some (.num cls) => some cls
  | some (.other kind) => some (pyLower kind)

/-- Amended C3 derivation rule: as the claim states it, except that a
plain-identifier default other than `True`/`False` yields the placeholder
type (not its lowercased node kind), which is what the code does. -/
def c3_amended_derive (placeholder : String) : PyExpr → String
  | .nameConstant none => placeholder
  | .nameConstant (some _) => "bool"
  | .name id => if id = "True" ∨ id = "False" then "bool" else placeholder
  | .num cls => cls
  | .other kind => pyLower kind

/-- Append the optional tag when the tag text is non-empty. -/
def c3_withTag (tag t : String) : String :=
  if tag ≠ "" then t ++ ", " ++ tag else t

/-- The type field amended C3 predicts for the parameter at index `i` of
the final ordering: a positional parameter with no default gets the
placeholder type; a defaulted parameter (the keyword zone) gets the
derived type with the optional tag appended; the appended variadics get
no type. -/
def c3ty (args : List String) (dnodes : List PyExpr) (ph tag : String)
    (i : Nat) : Option String :=
  let kb := args.length - dnodes.length
  if i < kb then some ph
  else if i < args.length then
    match dnodes[i - kb]? with
    | some e => some (c3_withTag tag (c3_amended_derive ph e))
    | none => some ph
  else none

/-- The parameter list the spec predicts: each name in declaration order,
with the given per-index type rule, the description placeholder, and the
order index as tag. -/
def specEntries (dd : String) (ty : Nat → Option String) :
    Nat → List String → List (String × Parameter)
  | _, [] => []
  | i, n :: ns => (n, ⟨[n], ty i, dd, i⟩) :: specEntries dd ty (i + 1) ns

/-- The pure value of the `ptype` computation in `fill_params_go` on its
non-error path. -/
def fill_entry_type (dt tag : String) (kb ke i : Nat) (d : DefaultSlot) :
    Option String :=
  if kb ≤ i ∧ i < ke ∧ tag ≠ "" then
    (derive_paramtype dt d).map (fun t => t ++ ", " ++ tag)
  else derive_paramtype dt d

/-- The entry list `fill_params_go` produces (on its non-error path),
before accumulator plumbing. -/
def fill_entries (dt dd tag : String) (kb ke : Nat) :
    Nat → List String → List DefaultSlot → List (String × Parameter)
  | _, [], _ => []
  | _, _ :: _, [] => []
  | i, n :: ns, d :: ds =>
      (n, ⟨[n], fill_entry_type dt tag kb ke i d, dd, i⟩) ::
        fill_entries dt dd tag kb ke (i + 1) ns ds

/-! ## Placeholder renumbering (claim C6)

The `autodoc` loop of lines 480-493 replaces each `"${NUMBER:"` token
prefix with `"${i:"`, `i` counting up from 1 (snippet mode). -/

/-- Dollar character. -/
def dollarChar : Char := '$'

/-- The token prefix `"${NUMBER:"` searched for by the renumbering loop
(`_nstr` in the source). -/
def nstr : List Char :=
  dollarChar :: lbraceChar :: ['N', 'U', 'M', 'B', 'E', 'R', ':']

/-- `str.find(sub)` helper: index of the first occurrence at or after the
accumulated offset `k`. -/
def firstOccurAux (pat : List Char) : List Char → Nat → Option Nat
  | [], k => if pat.isPrefixOf [] then some k else none
  | c :: rest, k =>
      if pat.isPrefixOf (c :: rest) then some k
      else firstOccurAux pat rest (k + 1)

/-- `s.find(pat)`: index of the first occurrence, `none` when absent
(Python returns `-1`). -/
def firstOccur (pat s : List Char) : Option Nat := firstOccurAux pat s 0

/-- `s.replace(pat, repl, 1)`: replace the first occurrence only. -/
def replaceFirst (pat repl s : List Char) : List Char :=
  match firstOccur pat s with
  | none => s
  | some k => s.take k ++ repl ++ s.drop (k + pat.length)

/-- Decimal digit character. -/
def digitChar (n : Nat) : Char := Char.ofNat (48 + n)

/-- Decimal digits of `n` (with fuel; `n + 1` is always enough since the
quotient shrinks strictly). -/
def natCharsAux : Nat → Nat → List Char
  | 0, _ => []
  | fuel + 1, n =>
      if n < 10 then [digitChar n]
      else natCharsAux fuel (n / 10) ++ [digitChar (n % 10)]

/-- `"{0}".format(i)` for a natural number. -/
def natChars (n : Nat) : List Char := natCharsAux (n + 1) n

/-- The replacement text `r"${{{0}:".format(i)`, i.e. `"${i:"`. -/
def numRepl (i : Nat) : List Char :=
  dollarChar :: lbraceChar :: (natChars i ++ [':'])

/-- The renumbering loop of `autodoc` (auto_docstring.py lines 480-493),
snippet mode: while `"${NUMBER:"` occurs, replace its first occurrence
with `"${i:"` and increment `i` (starting from 1).  Python's `while` is
modelled with fuel; each iteration consumes one 9-character occurrence,
so `s.length + 1` fuel always suffices. -/
def renumber_snippet_go : Nat → Nat → List Char → List Char
  | 0, _, s => s
  | fuel + 1, i, s =>
      match firstOccur nstr s with
      | none => s
      | some _ => renumber_snippet_go fuel (i + 1) (replaceFirst nstr (numRepl i) s)

/-- Entry point of the renumbering pass, starting at index 1. -/
def renumber_snippet (s : List Char) : List Char :=
  renumber_snippet_go (s.length + 1) 1 s

/-- Segments following the first one, each preceded by a `"${NUMBER:"`
marker: the shape of a rendered docstring whose tokens all still carry
the `NUMBER` label. -/
def joinTail : List (List Char) → List Char
  | [] => []
  | t :: rest => nstr ++ t ++ joinTail rest

/-- A docstring text with `segs.length - 1` placeholder markers: the
segments interleaved with `"${NUMBER:"`. -/
def joinNumber : List (List Char) → List Char
  | [] => []
  | s :: rest => s ++ joinTail rest

/-- The same tail segments with the markers carrying indices
`i, i + 1, ...` in textual order. -/
def indexedTail : Nat → List (List Char) → List Char
  | _, [] => []
  | i, t :: rest => numRepl i ++ t ++ indexedTail (i + 1) rest

/-- The segments interleaved with renumbered markers `"${i:"`,
`"${i+1:"`, ... in left-to-right order. -/
def joinIndexed : Nat → List (List Char) → List Char
  | _, [] => []
  | i, s :: rest => s ++ indexedTail i rest

/-- Invariant of the already-renumbered prefix: no `"${NUMBER:"`
occurrence can start inside it, whatever text follows (rewritten markers
`"${<digits>:"` have a digit where the token needs `N`). -/
def noStart (l : List Char) : Prop :=
  ∀ (suffix : List Char) (m : Nat), m < l.length →
    ¬ nstr.isPrefixOf ((l ++ suffix).drop m)

/-! ## The host buffer model

Sublime regions and the view primitives the plugin calls.  Positions are
`Int` (Sublime's `find` returns `Region(-1, -1)` when nothing matches)
and are clamped into the buffer for every text access, as the host does. -/

/-- A Sublime region: an ordered-or-reversed pair of buffer positions. -/
structure Region where
  a : Int
  b : Int
deriving DecidableEq, Repr

/-- The not-found sentinel `Region(-1, -1)` returned by `view.find`. -/
def Region.notFound : Region := ⟨-1, -1⟩

/-- `region.begin()`. -/
def Region.begin (r : Region) : Int := min r.a r.b

/-- `region.end()`. -/
def Region.stop (r : Region) : Int := max r.a r.b

/-- The host view: the buffer text plus the host-computed oracles the
code consults — the structural indentation level of a position, the raw
declaration-pattern matches of `view.find_all`, and the lexical
comment/string scope classification. -/
structure View where
  buf : List Char
  indentLevel : Int → Nat
  declMatches : List Region
  scopeCommentOrString : Int → Bool

def View.size (v : View) : Nat := v.buf.length

/-- Clamp a position into `[0, size]`. -/
def clampPos (n : Nat) (p : Int) : Nat := (max 0 (min p (n : Int))).toNat

/-- Start of the line containing (clamped) position `q`: just after the
previous newline. -/
def lineStart (buf : List Char) (q : Nat) : Nat :=
  q - ((buf.take q).reverse.takeWhile (fun c => c ≠ '\n')).length

/-- End of the line containing position `q`: the next newline (or the
buffer end); a position sitting on a newline belongs to the line that
newline terminates. -/
def lineEnd (buf : List Char) (q : Nat) : Nat :=
  q + ((buf.drop q).takeWhile (fun c => c ≠ '\n')).length

/-- `view.line(point)`. -/
def View.linePt (v : View) (p : Int) : Region :=
  ⟨(lineStart v.buf (clampPos v.size p) : Int),
   (lineEnd v.buf (clampPos v.size p) : Int)⟩

/-- `view.full_line(point)`: the line including its trailing newline. -/
def View.fullLinePt (v : View) (p : Int) : Region :=
  let q := clampPos v.size p
  let e := lineEnd v.buf q
  ⟨(lineStart v.buf q : Int), (if e < v.size then ((e + 1 : Nat) : Int) else (e : Int))⟩

/-- `view.line(region)`: from the start of the line containing `begin()`
to the end of the line containing `end()`. -/
def View.lineR (v : View) (r : Region) : Region :=
  ⟨(v.linePt r.begin).a, (v.linePt r.stop).b⟩

/-- `view.substr(region)`. -/
def View.substr (v : View) (r : Region) : List Char :=
  (v.buf.take (clampPos v.size r.stop)).drop (clampPos v.size r.begin)

/-- The row of `view.rowcol(point)`: newlines before the position. -/
def View.row (v : View) (p : Int) : Nat :=
  ((v.buf.take (clampPos v.size p)).filter (fun c => c = '\n')).length

/-- First index at or after `q` whose character satisfies `pred`. -/
def findCharIdx (buf : List Char) (q : Nat) (pred : Char → Bool) : Option Nat :=
  ((buf.drop q).findIdx? pred).map (q + ·)

/-- `view.find(r"\S", pos)`: the first non-whitespace character. -/
def View.findNonWs (v : View) (pos : Int) : Region :=
  match findCharIdx v.buf (clampPos v.size pos) (fun c => ! isPyWs c) with
  | some i => ⟨(i : Int), ((i + 1 : Nat) : Int)⟩
  | none => Region.notFound

/-- `view.find(r"\S{1,4}", pos)`: up to four consecutive non-whitespace
characters starting at the first one found. -/
def View.findChars1to4 (v : View) (pos : Int) : Region :=
  match findCharIdx v.buf (clampPos v.size pos) (fun c => ! isPyWs c) with
  | some i =>
      ⟨(i : Int),
       ((i + min 4 ((v.buf.drop i).takeWhile (fun c => ! isPyWs c)).length : Nat) : Int)⟩
  | none => Region.notFound

/-- `view.find(r"\s*", pos)`: the (possibly empty) greedy whitespace run
starting at `pos` itself. -/
def View.findWsRun (v : View) (pos : Int) : Region :=
  ⟨((clampPos v.size pos : Nat) : Int),
   ((clampPos v.size pos + ((v.buf.drop (clampPos v.size pos)).takeWhile isPyWs).length : Nat) : Int)⟩

/-- `view.find(pat, pos, sublime.LITERAL)`. -/
def View.findLiteral (v : View) (pat : List Char) (pos : Int) : Region :=
  match (firstOccur pat (v.buf.drop (clampPos v.size pos))).map (clampPos v.size pos + ·) with
  | some i => ⟨(i : Int), ((i + pat.length : Nat) : Int)⟩
  | none => Region.notFound

/-- Search helper for `view.find(r"(?<!\\)" + style, pos)`: first index
`i ≥` the start where the pattern matches and the preceding buffer
character (the lookbehind may inspect text before the search start) is
not a backslash. -/
def findUnescapedAux (buf pat : List Char) : Nat → Nat → Option Nat
  | 0, _ => none
  | fuel + 1, i =>
      if pat.isPrefixOf (buf.drop i) ∧ (i = 0 ∨ ¬ buf[i - 1]? = some '\\') then some i
      else findUnescapedAux buf pat fuel (i + 1)

/-- `view.find(r"(?<!\\)" + style, pos)`: first unescaped occurrence. -/
def View.findUnescaped (v : View) (pat : List Char) (pos : Int) : Region :=
  match findUnescapedAux v.buf pat (v.size + 1 - clampPos v.size pos) (clampPos v.size pos) with
  | some i => ⟨(i : Int), ((i + pat.length : Nat) : Int)⟩
  | none => Region.notFound

/-- `view.replace(edit, region, text)`. -/
def View.replace (v : View) (r : Region) (text : List Char) : View :=
  { v with buf := (v.buf.take (clampPos v.size r.begin)) ++ text ++
      (v.buf.drop (clampPos v.size r.stop)) }

/-- A concrete host view for witnesses: tab size 4 with space indentation
(the level of a position is its line's leading-space count divided by 4),
no declaration matches, nothing scoped as comment or string. -/
def simpleView (s : String) : View :=
  ⟨s.data,
   fun p =>
     ((s.data.drop (lineStart s.data (clampPos s.data.length p))).takeWhile
       (fun c => c = ' ')).length / 4,
   [], fun _ => false⟩

/-! ## textwrap.dedent

`find_preceding_declaration` uses Python's `textwrap.dedent` (stdlib
collaborator), modelled from the CPython source: whitespace-only lines
are blanked, the margin is the longest common prefix of the `[ \t]*`
indents of content lines, and the margin is stripped from every line that
starts with it. -/

def isSpaceTab (c : Char) : Bool := c = ' ' ∨ c = '\t'

/-- Longest common prefix of two character lists. -/
def commonPrefixChars : List Char → List Char → List Char
  | a :: as, b :: bs => if a = b then a :: commonPrefixChars as bs else []
  | _, _ => []

/-- The margin fold of `textwrap.dedent`. -/
def dedentMargin (indents : List (List Char)) : Option (List Char) :=
  indents.foldl
    (fun m ind =>
      match m with
      | none => some ind
      | some mg =>
          if mg.isPrefixOf ind then some mg
          else if ind.isPrefixOf mg then some ind
          else some (commonPrefixChars mg ind))
    none

/-- `textwrap.dedent` over '\n'-separated text. -/
def dedent (text : List Char) : List Char :=
  let lines := List.splitOn '\n' text
  let lines1 := lines.map (fun l =>
    if l ≠ [] ∧ l.all isSpaceTab then [] else l)
  let indents := (lines1.filter (fun l => (l.dropWhile isSpaceTab) ≠ [])).map
    (fun l => l.takeWhile isSpaceTab)
  match dedentMargin indents with
  | none => List.intercalate ['\n'] lines1
  | some [] => List.intercalate ['\n'] lines1
  | some mg =>
      List.intercalate ['\n']
        (lines1.map (fun l => if mg.isPrefixOf l then l.drop mg.length else l))

/-! ## find_preceding_declaration (claim C1) -/

/-- The candidate scan of `find_preceding_declaration` (auto_docstring.py
lines 69-92): nearest-to-farthest over the given list; an empty dedented
block raises `NotImplementedError`. -/
def find_preceding_loop (v : View) (region : Region) :
    List Region → Except String (Option Region)
  | [] => .ok none
  | d :: rest =>
      let block := dedent (v.substr ⟨(v.lineR d).a, (v.lineR region).b⟩)
      match block with
      | [] => .error "NotImplementedError: Shouldn't be here?"
      | c :: _ =>
          let is_closure :=
            if d.a = 0 ∧ d.b = 0 then false
            else if isPyWs c then true
            else ((List.splitOn '\n' block).tail).any
              (fun l => match l with | [] => false | x :: _ => ! isPyWs x)
          if is_closure then find_preceding_loop v region rest
          else .ok (some d)

/-- `find_preceding_declaration` (auto_docstring.py lines 51-94). -/
def find_preceding_declaration (v : View) (defs : List Region) (region : Region) :
    Except String (Option Region) :=
  find_preceding_loop v region ((defs.filter (fun d => d.a ≤ region.a)).reverse)

/-- The closure flag as claim C1 words it: over the dedented text block
from the candidate's line through the cursor's line, the candidate is
flagged exactly when the block begins with a whitespace character or has
a later non-empty line whose first character is not whitespace; the
synthetic module declaration (the zero-length region at position 0) is
never flagged. -/
def c1_claimed_closure (v : View) (region d : Region) : Bool :=
  let block := dedent (v.substr ⟨(v.lineR d).a, (v.lineR region).b⟩)
  if d = ⟨0, 0⟩ then false
  else
    (match block with | [] => false | c :: _ => isPyWs c) ||
    ((List.splitOn '\n' block).tail).any
      (fun l => match l with | [] => false | x :: _ => ! isPyWs x)

/-- The result claim C1 predicts: among the declarations whose start is
at or before the cursor, scanning nearest-to-farthest, the first
non-flagged candidate. -/
def c1_claimed_resolve (v : View) (defs : List Region) (region : Region) :
    Option Region :=
  ((defs.filter (fun d => d.a ≤ region.a)).reverse).find?
    (fun d => ! c1_claimed_closure v region d)

/-! ## get_indentation (claim C5) -/

/-- `get_indentation` (auto_docstring.py lines 96-136), returning
`(decl_indent, body_indent, has_indented_body)`. -/
def get_indentation (v : View) (target : Region) (module_decl : Bool) :
    List Char × List Char × Bool :=
  let def_level := v.indentLevel target.a
  let def_indent_txt := v.substr (v.findWsRun (v.linePt target.a).a)
  let nextline := (v.linePt target.b).b
  let next_char_reg := v.findNonWs nextline
  let body := v.substr (v.lineR next_char_reg)
  let body_level := v.indentLevel next_char_reg.a
  let body_indent_txt := body.take (body.length - (body.dropWhile isPyWs).length)
  if body_level > def_level then (def_indent_txt, body_indent_txt, true)
  else
    let single_indent :=
      if def_level = 0 then (if module_decl then [] else [' ', ' ', ' ', ' '])
      else def_indent_txt.take (def_indent_txt.length / def_level)
    (def_indent_txt, def_indent_txt ++ single_indent, false)

/-- The `has_indented_body` flag exactly as claim C5 words it: the
indentation level of the first non-whitespace character after the header
itself (`target.b`) exceeds the header's level. -/
def c5_claimed_has_indented_body (v : View) (target : Region) : Bool :=
  decide (v.indentLevel target.a < v.indentLevel (v.findNonWs target.b).a)

/-- Amended C5, written from the claim's words with the search starting
after the header's line end: `(body_indent, has_indented_body)`. -/
def c5_spec_get_indentation (v : View) (target : Region) (module_decl : Bool) :
    List Char × Bool :=
  let headerLevel := v.indentLevel target.a
  let headerIndentText := v.substr (v.findWsRun (v.linePt target.a).a)
  let firstBodyChar := v.findNonWs ((v.linePt target.b).b)
  if headerLevel < v.indentLevel firstBodyChar.a then
    ((v.substr (v.lineR firstBodyChar)).takeWhile isPyWs, true)
  else
    (headerIndentText ++
      (if headerLevel = 0 then (if module_decl then [] else [' ', ' ', ' ', ' '])
       else headerIndentText.take (headerIndentText.length / headerLevel)),
     false)

/-! ## get_docstring (claims C7, C9, C10) -/

/-- Triple double quote. -/
def tripleDouble : List Char := ['"', '"', '"']

/-- Triple single quote. -/
def tripleSingle : List Char := [squoteChar, squoteChar, squoteChar]

/-- The sentinel placed inside a freshly inserted stub. -/
def sentinelChars : List Char := "<FRESHLY_INSERTED>".data

/-- The `#!` / `# -*-` skipping loop of `get_docstring` (lines 171-178):
`cnt` advances while the line containing position `cnt + 1` starts with a
shebang or an encoding comment.  A buffer whose final line is such a
directive keeps the Python loop spinning forever; fuel exhaustion models
that divergence. -/
def shebang_loop (v : View) : Nat → Int → Except String Int
  | 0, _ => .error "nontermination: trailing directive line"
  | fuel + 1, cnt =>
      let line := v.substr (v.linePt (cnt + 1))
      if ("#!".data.isPrefixOf line) ∨ ("# -*-".data.isPrefixOf line) then
        shebang_loop v fuel (cnt + 1)
      else .ok cnt

/-- The module-level target adjustment of `get_docstring` (lines
169-180): skip leading shebang / encoding lines by widening the target. -/
def gd_adjust (v : View) (target : Region) (module_level : Bool) :
    Except String Region :=
  if module_level then do
    let cnt ← shebang_loop v (v.size + 2) (-1)
    if cnt ≥ 0 then pure ⟨(v.linePt 0).a, (v.linePt cnt).b⟩
    else pure target
  else pure target

/-- The next-characters scan of `get_docstring` (lines 181-191),
including the hack for a comment at the end of the declaration line:
returns `(search_start, next_chars_reg, next_chars)`.  Reading
`next_chars[0]` of an empty string is Python's `IndexError`. -/
def gd_scan (v : View) (target : Region) (target_end_lineno : Nat)
    (module_level : Bool) : Except String (Int × Region × List Char) :=
  let search_start := target.b
  let next_chars_reg := v.findChars1to4 search_start
  let next_chars := v.substr next_chars_reg
  if v.row next_chars_reg.a = target_end_lineno then
    match next_chars with
    | [] => .error "IndexError: string index out of range"
    | c :: _ =>
        if c = '#' ∧ ¬ module_level then
          let ss := (v.linePt target.b).b
          let r := v.findChars1to4 ss
          .ok (ss, r, v.substr r)
        else .ok (search_start, next_chars_reg, next_chars)
  else .ok (search_start, next_chars_reg, next_chars)

/-- The style detection of `get_docstring` (lines 202-212): strip an `r` /
`u` literal prefix, then recognize a triple or single quote; returns the
style characters (if any) and the literal-prefix length. -/
def gd_style (next_chars : List Char) : Option (List Char) × Nat :=
  let stripped : List Char × Nat :=
    match next_chars with
    | c :: rest => if c = 'r' ∨ c = 'u' then (rest, 1) else (next_chars, 0)
    | [] => (next_chars, 0)
  let nc := stripped.1
  let style :=
    if tripleDouble.isPrefixOf nc ∨ tripleSingle.isPrefixOf nc then some (nc.take 3)
    else
      match nc with
      | c :: _ => if c = '"' ∨ c = squoteChar then some [c] else none
      | [] => none
  (style, stripped.2)

/-- The results of `get_docstring`: the (possibly mutated) view, the line
number printed on a malformed docstring, and the four returned values
`(whole_region, docstr_region, style, new)`, each `none` when Python
returns `None`. -/
structure GDResult where
  v : View
  reportLine : Option Nat
  whole : Option Region
  docstr : Option Region
  style : Option (List Char)
  isNew : Option Bool

/-- `get_docstring` (auto_docstring.py lines 138-268).  `hasEdit` models
whether a `sublime.Edit` object was passed (`edit is not None`). -/
def get_docstring (v : View) (hasEdit : Bool) (target0 : Region) :
    Except String GDResult := do
  let target_end_lineno := v.row target0.b
  let module_level : Bool := decide (target_end_lineno = 0)
  let target ← gd_adjust v target0 module_level
  let scanned ← gd_scan v target target_end_lineno module_level
  let next_chars_reg := scanned.2.1
  let next_chars := scanned.2.2
  let same_line : Bool := decide (v.row next_chars_reg.a = target_end_lineno)
  let sty := gd_style next_chars
  match sty.1 with
  | some style =>
      let ncb := next_chars_reg.a + sty.2 + style.length
      let docstr_end := v.findUnescaped style ncb
      if docstr_end.a < next_chars_reg.a then
        pure ⟨v, some target_end_lineno, none, none, none, none⟩
      else
        pure ⟨v, none, some ⟨next_chars_reg.a, docstr_end.b⟩,
          some ⟨ncb, docstr_end.a⟩, some style, some false⟩
  | none =>
      if ¬ hasEdit then
        pure ⟨v, none, none, none, none, some false⟩
      else
        let style := tripleDouble
        let gi := get_indentation v target module_level
        let body_indent_txt := gi.2.1
        let has_indented_body := gi.2.2
        let plan : (Int × Int) × (List Char × List Char) :=
          if same_line then
            ((target.b, next_chars_reg.a),
             ((if module_level then [] else ['\n']), '\n' :: body_indent_txt))
          else if has_indented_body then
            (((v.fullLinePt target.b).b, (v.findWsRun (v.fullLinePt target.b).b).b),
             (([] : List Char), '\n' :: body_indent_txt))
          else
            (((v.fullLinePt target.b).b, (v.fullLinePt target.b).b),
             ((if ¬ (v.substr (v.fullLinePt target.b)).getLast? = some '\n'
               then ['\n'] else ([] : List Char)),
              ['\n']))
        let stub := plan.2.1 ++ body_indent_txt ++ style ++ sentinelChars ++
          style ++ plan.2.2
        let v' := v.replace ⟨plan.1.1, plan.1.2⟩ stub
        let whole := v'.findLiteral (style ++ sentinelChars ++ style) target.b
        pure ⟨v', none, some whole,
          some ⟨whole.a + (style.length : Int), whole.b - (style.length : Int)⟩,
          some style, some true⟩

/-! ## get_desired_style (claim C8) -/

/-- `find_all_declarations` (auto_docstring.py lines 26-49): the host's
pattern matches, pruned of comment/string scopes, with the synthetic
module region prepended when requested. -/
def find_all_declarations (v : View) (include_module : Bool) : List Region :=
  (if include_module then [Region.mk 0 0] else []) ++
    v.declMatches.filter (fun d => ! v.scopeCommentOrString d.a)

/-- Modelled from the spec: the closed set of recognized docstring styles
(the values of `docstring_styles.STYLE_LOOKUP`, which is not under
`src/`): Google and Numpy. -/
inductive DocStyle where
  | google
  | numpy
deriving DecidableEq, Repr

/-- Modelled from the spec: `docstring_styles.STYLE_LOOKUP` (not under
`src/`), the mapping from configured style names to style classes;
unknown keys raise `KeyError` (`none` here). -/
def STYLE_LOOKUP : String → Option DocStyle
  | "google" => some .google
  | "numpy" => some .numpy
  | _ => none

/-- The one setting `get_desired_style` reads: the `"style"` value
(default `"auto_google"`). -/
structure Settings where
  style : String

/-- The docstring scan of `get_desired_style` (lines 318-331): the first
declaration whose docstring text the detector recognizes decides the
style.  `detect` models `docstring_styles.detect_style` (not under
`src/`): from the spec, it returns the style whose grammar the text
matches, else `None`. -/
def styleScan (v : View) (detect : List Char → Option DocStyle) :
    List Region → Except String (Option DocStyle)
  | [] => .ok none
  | d :: rest => do
      let out ← get_docstring v false d
      let typ := match out.docstr with
        | none => none
        | some r => detect (v.substr r)
      match typ with
      | some t => pure (some t)
      | none => styleScan v detect rest

/-- `get_desired_style` (auto_docstring.py lines 295-334). -/
def get_desired_style (v : View) (s : Settings)
    (detect : List Char → Option DocStyle) (defaultKw : String) :
    Except String DocStyle :=
  let style := pyLower s.style
  if pyStartsWith style "auto" then do
    let d0 := match (pySplitUnderscore style)[1]? with
      | some x => x
      | none => defaultKw
    let found ← styleScan v detect (find_all_declarations v true)
    match found with
    | some t => pure t
    | none =>
        match STYLE_LOOKUP d0 with
        | some st => pure st
        | none => .error "KeyError"
  else
    match STYLE_LOOKUP style with
    | some st => pure st
    | none => .error "KeyError"

/-- The auto-mode result as claim C8 words it: scan the buffer's
docstrings in buffer order (module first, then declarations by position)
and take the style of the first docstring the detector recognizes; fall
back to the given default style when none matches. -/
def c8_claimed_auto (v : View) (detect : List Char → Option DocStyle)
    (defaultStyle : DocStyle) : DocStyle :=
  match (find_all_declarations v true).findSome? (fun d =>
    match get_docstring v false d with
    | .ok out =>
        match out.docstr with
        | some r => detect (v.substr r)
        | none => none
    | .error _ => none) with
  | some t => t
  | none => defaultStyle

/-! ## Helper lemmas: parameter parser -/

theorem odInsert_of_not_mem (k : String) (p : Parameter) :
    ∀ acc : List (String × Parameter), k ∉ acc.map Prod.fst →
      odInsert k p acc = acc ++ [(k, p)] := by
  intro acc
  induction acc with
  | nil => intro _; rfl
  | cons hd tl ih =>
      intro h
      obtain ⟨k', p'⟩ := hd
      have h1 : ¬ (k' = k) := by
        intro he; exact h (by simp [he])
      have h2 : k ∉ tl.map Prod.fst := by
        intro hm; exact h (by simp [hm])
      simp only [odInsert, if_neg h1, ih h2, List.cons_append]

theorem derive_ast_eq_amended (dt : String) (e : PyExpr) :
    derive_paramtype dt (.ast e) = some (c3_amended_derive dt e) := by
  cases e with
  | num cls => rfl
  | nameConstant val => cases val <;> rfl
  | name id =>
      simp only [derive_paramtype, c3_amended_derive]
      split <;> rfl
  | other kind => rfl

theorem fill_params_go_eq_entries (dt dd tag : String) (kb ke : Nat) :
    ∀ (ns : List String) (ss : List DefaultSlot) (i : Nat)
      (acc : List (String × Parameter)),
      ns.length = ss.length →
      (∀ j d, ss[j]? = some d → kb ≤ i + j → i + j < ke → tag ≠ "" →
        derive_paramtype dt d ≠ none) →
      ns.Nodup → (∀ n ∈ ns, n ∉ acc.map Prod.fst) →
      fill_params_go dt dd tag kb ke i ns ss acc =
        .ok (acc ++ fill_entries dt dd tag kb ke i ns ss) := by
  intro ns
  induction ns with
  | nil =>
      intro ss i acc hlen _ _ _
      cases ss with
      | nil => simp [fill_params_go, fill_entries]
      | cons d ds => simp at hlen
  | cons n ns ih =>
      intro ss i acc hlen herr hnd hdis
      cases ss with
      | nil => simp at hlen
      | cons d ds =>
          have hnotmem : n ∉ acc.map Prod.fst := hdis n (List.mem_cons_self n ns)
          have herr' : ∀ j d', ds[j]? = some d' → kb ≤ (i + 1) + j →
              (i + 1) + j < ke → tag ≠ "" → derive_paramtype dt d' ≠ none := by
            intro j d' hj h1 h2 h3
            refine herr (j + 1) d' (by simpa using hj) (by omega) (by omega) h3
          have hnd' : ns.Nodup := (List.nodup_cons.mp hnd).2
          have hdis' : ∀ (q : Parameter), ∀ m ∈ ns,
              m ∉ (acc ++ [(n, q)]).map Prod.fst := by
            intro q m hm
            have hmn : m ≠ n := by
              intro he
              exact (List.nodup_cons.mp hnd).1 (he ▸ hm)
            simp only [List.map_append, List.mem_append, List.map_cons, List.map_nil,
              List.mem_singleton]
            push_neg
            exact ⟨hdis m (List.mem_cons_of_mem _ hm), hmn⟩
          by_cases hz : kb ≤ i ∧ i < ke ∧ tag ≠ ""
          · have hd0 : derive_paramtype dt d ≠ none :=
              herr 0 d (by simp) (by simpa using hz.1) (by simpa using hz.2.1) hz.2.2
            cases hder : derive_paramtype dt d with
            | none => exact absurd hder hd0
            | some t =>
                simp only [fill_params_go, hder, if_pos hz]
                rw [odInsert_of_not_mem _ _ _ hnotmem,
                  ih ds (i + 1) _ (by simpa using hlen) herr' hnd' (hdis' _),
                  fill_entries]
                simp [fill_entry_type, hz, hder, List.append_assoc]
          · simp only [fill_params_go, if_neg hz]
            rw [odInsert_of_not_mem _ _ _ hnotmem,
              ih ds (i + 1) _ (by simpa using hlen) herr' hnd' (hdis' _),
              fill_entries]
            simp [fill_entry_type, hz, List.append_assoc]

theorem fill_entries_getElem? (dt dd tag : String) (kb ke : Nat) :
    ∀ (ns : List String) (ss : List DefaultSlot) (i j : Nat),
      ns.length = ss.length →
      (fill_entries dt dd tag kb ke i ns ss)[j]? =
        ns[j]?.bind (fun n => ss[j]?.map (fun d =>
          (n, (⟨[n], fill_entry_type dt tag kb ke (i + j) d, dd, i + j⟩ : Parameter)))) := by
  intro ns
  induction ns with
  | nil =>
      intro ss i j hlen
      cases ss with
      | nil => simp [fill_entries]
      | cons d ds => simp at hlen
  | cons n ns ih =>
      intro ss i j hlen
      cases ss with
      | nil => simp at hlen
      | cons d ds =>
          cases j with
          | zero => simp [fill_entries]
          | succ j' =>
              simp only [fill_entries, List.getElem?_cons_succ]
              rw [ih ds (i + 1) j' (by simpa using hlen)]
              have : i + 1 + j' = i + (j' + 1) := by omega
              rw [this]

theorem specEntries_getElem? (dd : String) (ty : Nat → Option String) :
    ∀ (ns : List String) (i j : Nat),
      (specEntries dd ty i ns)[j]? =
        ns[j]?.map (fun n => (n, (⟨[n], ty (i + j), dd, i + j⟩ : Parameter))) := by
  intro ns
  induction ns with
  | nil => intro i j; simp [specEntries]
  | cons n ns ih =>
      intro i j
      cases j with
      | zero => simp [specEntries]
      | succ j' =>
          simp only [specEntries, List.getElem?_cons_succ]
          rw [ih (i + 1) j']
          have : i + 1 + j' = i + (j' + 1) := by omega
          rw [this]

theorem c3_slots_pad (va kw : Option String) :
    optSlot va ++ optSlot kw =
      List.replicate (optName "*" va ++ optName "**" kw).length
        DefaultSlot.pyNone := by
  cases va <;> cases kw <;> rfl

theorem c3_slots_base_length (args : List String) (dnodes : List PyExpr)
    (hlen : dnodes.length ≤ args.length) :
    (List.replicate (args.length - dnodes.length) DefaultSlot.dstr ++
      dnodes.map DefaultSlot.ast).length = args.length := by
  simp [Nat.sub_add_cancel hlen]

/-- C3 (amended): for every declaration, the types `fill_params` assigns
are: positional parameter with no default → placeholder type; defaulted
parameter (the keyword zone) → rule-derived type with the optional tag
appended (None → placeholder, True/False → bool, numeric → runtime class
name, plain identifier → placeholder, anything else → lowercased node
kind); variadics → no type. -/
theorem c3_param_types
    (args : List String) (dnodes : List PyExpr) (va kw : Option String)
    (ph dd tag : String)
    (hlen : dnodes.length ≤ args.length)
    (hnodup : (args ++ optName "*" va ++ optName "**" kw).Nodup) :
    fill_params args dnodes va kw ph dd tag =
      .ok (specEntries dd (c3ty args dnodes ph tag) 0
        (args ++ optName "*" va ++ optName "**" kw)) := by
  have hkb : (args.length - dnodes.length) + dnodes.length = args.length :=
    Nat.sub_add_cancel hlen
  have hbaselen := c3_slots_base_length args dnodes hlen
  have hva : (optSlot va).length = (optName "*" va).length := by
    cases va <;> rfl
  have hkw : (optSlot kw).length = (optName "**" kw).length := by
    cases kw <;> rfl
  have hlens : (args ++ optName "*" va ++ optName "**" kw).length =
      ((List.replicate (args.length - dnodes.length) DefaultSlot.dstr ++
        dnodes.map DefaultSlot.ast) ++ optSlot va ++ optSlot kw).length := by
    simp only [List.length_append, List.length_replicate, List.length_map]
    omega
  -- slot lookup in the three index ranges
  have hs1 : ∀ j, j < args.length - dnodes.length →
      ((List.replicate (args.length - dnodes.length) DefaultSlot.dstr ++
        dnodes.map DefaultSlot.ast) ++ optSlot va ++ optSlot kw)[j]? =
        some DefaultSlot.dstr := by
    intro j hj
    have hj2 : j < args.length := by omega
    rw [List.getElem?_append_left (by rw [List.length_append, hbaselen]; omega),
      List.getElem?_append_left (by rw [hbaselen]; omega),
      List.getElem?_append_left (by simpa using hj),
      List.getElem?_replicate]
    simp [hj]
  have hs2 : ∀ j, args.length - dnodes.length ≤ j → j < args.length →
      ∃ e, dnodes[j - (args.length - dnodes.length)]? = some e ∧
      ((List.replicate (args.length - dnodes.length) DefaultSlot.dstr ++
        dnodes.map DefaultSlot.ast) ++ optSlot va ++ optSlot kw)[j]? =
        some (DefaultSlot.ast e) := by
    intro j hj1 hj2
    have hidx : j - (args.length - dnodes.length) < dnodes.length := by omega
    obtain ⟨e, he⟩ : ∃ e, dnodes[j - (args.length - dnodes.length)]? = some e :=
      ⟨dnodes[j - (args.length - dnodes.length)],
        List.getElem?_eq_getElem hidx⟩
    refine ⟨e, he, ?_⟩
    rw [List.getElem?_append_left (by rw [List.length_append, hbaselen]; omega),
      List.getElem?_append_left (by rw [hbaselen]; omega),
      List.getElem?_append_right (by simpa using hj1),
      List.getElem?_map]
    simp only [List.length_replicate]
    rw [he]
    rfl
  have hs3 : ∀ j, args.length ≤ j →
      j < (args ++ optName "*" va ++ optName "**" kw).length →
      ((List.replicate (args.length - dnodes.length) DefaultSlot.dstr ++
        dnodes.map DefaultSlot.ast) ++ optSlot va ++ optSlot kw)[j]? =
        some DefaultSlot.pyNone := by
    intro j hj1 hj2
    rw [List.append_assoc, List.getElem?_append_right (by rw [hbaselen]; omega),
      c3_slots_pad, List.getElem?_replicate]
    have hj2' : j < args.length +
        ((optName "*" va).length + (optName "**" kw).length) := by
      simpa [List.length_append] using hj2
    simp only [List.length_append, List.length_replicate, List.length_map]
    rw [if_pos (by omega)]
  have herr : ∀ j d,
      ((List.replicate (args.length - dnodes.length) DefaultSlot.dstr ++
        dnodes.map DefaultSlot.ast) ++ optSlot va ++ optSlot kw)[j]? = some d →
      args.length - dnodes.length ≤ 0 + j → 0 + j < args.length → tag ≠ "" →
      derive_paramtype ph d ≠ none := by
    intro j d hj h1 h2 _
    obtain ⟨e, _, hsl⟩ := hs2 j (by simpa using h1) (by simpa using h2)
    rw [hsl] at hj
    cases hj
    rw [derive_ast_eq_amended]
    simp
  simp only [fill_params]
  rw [fill_params_go_eq_entries ph dd tag (args.length - dnodes.length) args.length
    (args ++ optName "*" va ++ optName "**" kw)
    ((List.replicate (args.length - dnodes.length) DefaultSlot.dstr ++
      dnodes.map DefaultSlot.ast) ++ optSlot va ++ optSlot kw) 0 []
    hlens herr hnodup (by simp)]
  refine congrArg Except.ok ?_
  rw [List.nil_append]
  apply List.ext_getElem?
  intro j
  rw [fill_entries_getElem? ph dd tag (args.length - dnodes.length) args.length _ _ 0 j hlens,
    specEntries_getElem?]
  simp only [Nat.zero_add]
  cases hn : (args ++ optName "*" va ++ optName "**" kw)[j]? with
  | none => simp
  | some n =>
      have hjlt : j < (args ++ optName "*" va ++ optName "**" kw).length :=
        (List.getElem?_eq_some.mp hn).1
      by_cases hr1 : j < args.length - dnodes.length
      · rw [hs1 j hr1]
        have hnz : ¬(args.length - dnodes.length ≤ j ∧ j < args.length ∧
            tag ≠ "") := by
          intro hc
          omega
        have hty : fill_entry_type ph tag (args.length - dnodes.length)
            args.length j DefaultSlot.dstr = some ph := by
          simp only [fill_entry_type]
          rw [if_neg hnz]
          rfl
        have hc3 : c3ty args dnodes ph tag j = some ph := by
          simp only [c3ty]
          rw [if_pos hr1]
        simp [hty, hc3]
      · by_cases hr2 : j < args.length
        · obtain ⟨e, he, hsl⟩ := hs2 j (by omega) hr2
          rw [hsl]
          have hty : fill_entry_type ph tag (args.length - dnodes.length)
              args.length j (DefaultSlot.ast e) =
              some (c3_withTag tag (c3_amended_derive ph e)) := by
            by_cases ht : tag = ""
            · have hnz : ¬(args.length - dnodes.length ≤ j ∧
                  j < args.length ∧ tag ≠ "") := by
                intro hc; exact hc.2.2 ht
              simp only [fill_entry_type]
              rw [if_neg hnz, derive_ast_eq_amended, c3_withTag,
                if_neg (fun hc => hc ht)]
            · have hz : args.length - dnodes.length ≤ j ∧
                  j < args.length ∧ tag ≠ "" := ⟨by omega, by omega, ht⟩
              simp only [fill_entry_type]
              rw [if_pos hz, derive_ast_eq_amended, c3_withTag, if_pos ht]
              rfl
          have hc3 : c3ty args dnodes ph tag j =
              some (c3_withTag tag (c3_amended_derive ph e)) := by
            simp only [c3ty]
            rw [if_neg (by omega), if_pos hr2, he]
          simp [hty, hc3]
        · rw [hs3 j (by omega) hjlt]
          have hnz : ¬(args.length - dnodes.length ≤ j ∧ j < args.length ∧
              tag ≠ "") := by
            intro hc
            omega
          have hty : fill_entry_type ph tag (args.length - dnodes.length)
              args.length j DefaultSlot.pyNone = none := by
            simp only [fill_entry_type]
            rw [if_neg hnz]
            rfl
          have hc3 : c3ty args dnodes ph tag j = none := by
            simp only [c3ty]
            rw [if_neg (by omega), if_neg hr2]
          simp [hty, hc3]

/-- C3 witness: the amended type-inference theorem applied to the concrete
declaration `(a, x=foo)`. -/
theorem c3_param_types_witness :
    fill_params ["a", "x"] [PyExpr.name "foo"] none none "P" "D" "optional" =
      .ok (specEntries "D" (c3ty ["a", "x"] [PyExpr.name "foo"] "P" "optional") 0
        (["a", "x"] ++ optName "*" none ++ optName "**" none)) :=
  c3_param_types ["a", "x"] [PyExpr.name "foo"] none none "P" "D" "optional"
    (by decide) (by decide)

/-- C3 counterexample: on `"a, x=foo"` the code assigns `x` (identifier
default `foo`, i.e. a `Name` node) the placeholder type with the optional
tag, not the lowercased node kind `"name"` the claim predicts for "any
other default expression"; and `a`, with no default and outside the
keyword zone, gets the placeholder type rather than no type. -/
theorem c3_counterexample :
    ((parse_function_params "a, x=foo" "TYPE" "Description" "optional").toOption.bind
        (List.lookup "x")).map Parameter.types =
      some (some (snippet_ph "TYPE" ++ ", optional")) ∧
    c3_claimed_derive (snippet_ph "TYPE") (some (PyExpr.name "foo")) = some "name" ∧
    (snippet_ph "TYPE" ++ ", optional") ≠ ("name" ++ ", optional") ∧
    ((parse_function_params "a, x=foo" "TYPE" "Description" "optional").toOption.bind
        (List.lookup "a")).map Parameter.types =
      some (some (snippet_ph "TYPE")) ∧
    c3_claimed_derive (snippet_ph "TYPE") none = none := by
  refine ⟨rfl, by decide, by decide, rfl, rfl⟩

/-- C2 counterexample: on `"a, b=1, *args, **kwargs"` the code gives `a`
the placeholder type (the claim says no type), and gives `*args` the
default description placeholder (the claim says no description). -/
theorem c2_counterexample :
    ((parse_function_params "a, b=1, *args, **kwargs" "TYPE" "Description"
        "optional").toOption.bind (List.lookup "a")).map Parameter.types =
      some (some (snippet_ph "TYPE")) ∧
    ((parse_function_params "a, b=1, *args, **kwargs" "TYPE" "Description"
        "optional").toOption.bind (List.lookup "*args")).map Parameter.description =
      some (snippet_ph "Description") ∧
    (some (snippet_ph "TYPE") : Option String) ≠ none ∧
    snippet_ph "Description" ≠ "" := by
  refine ⟨rfl, rfl, by decide, by decide⟩

/-- C2 (amended): the parameter parser on the text
`"a, b=1, *args, **kwargs"` yields exactly four parameters in declaration
order: `a` with the placeholder type and no optional tag, `b` with type
`int` carrying the appended optional tag, then `*args` and `**kwargs`,
the two variadic parameters having no type and carrying the default
description placeholder. -/
theorem c2_params_eval :
    parse_function_params "a, b=1, *args, **kwargs" "TYPE" "Description" "optional" =
      .ok [("a", ⟨["a"], some (snippet_ph "TYPE"), snippet_ph "Description", 0⟩),
           ("b", ⟨["b"], some "int, optional", snippet_ph "Description", 1⟩),
           ("*args", ⟨["*args"], none, snippet_ph "Description", 2⟩),
           ("**kwargs", ⟨["**kwargs"], none, snippet_ph "Description", 3⟩)] := by
  rfl

/-- C4: if the declaration's first parameter is named `self` or `cls`,
`parse_function_params` drops it from the output, popping the
corresponding first default exactly when the number of defaults equals
the original number of parameters; and parsing `"self, x"` yields exactly
one parameter, `x`. -/
theorem c4_self_drop (first : String) (rest : List String)
    (dn : List PyExpr) (va kw : Option String) (dt dd tag : String)
    (h : first = "self" ∨ first = "cls") :
    parse_function_params_ast ⟨first :: rest, dn, va, kw⟩ dt dd tag =
      fill_params rest (if dn.length = rest.length + 1 then dn.tail else dn)
        va kw (snippet_ph dt) (snippet_ph dd) tag ∧
    parse_function_params "self, x" "TYPE" "Description" "optional" =
      .ok [("x", ⟨["x"], some (snippet_ph "TYPE"), snippet_ph "Description", 0⟩)] := by
  refine ⟨?_, rfl⟩
  simp only [parse_function_params_ast]
  rw [if_pos h]
  simp [List.length_cons]

/-- C4 witness: the drop theorem applied at `"self, x"`. -/
theorem c4_self_drop_witness :
    (parse_function_params_ast ⟨["self", "x"], [], none, none⟩ "TYPE" "Description" "optional" =
      fill_params ["x"]
        (if ([] : List PyExpr).length = ["x"].length + 1 then ([] : List PyExpr).tail else [])
        none none (snippet_ph "TYPE") (snippet_ph "Description") "optional") ∧
    parse_function_params "self, x" "TYPE" "Description" "optional" =
      .ok [("x", ⟨["x"], some (snippet_ph "TYPE"), snippet_ph "Description", 0⟩)] :=
  c4_self_drop "self" ["x"] [] none none "TYPE" "Description" "optional" (Or.inl rfl)

/-! ## Helper lemmas: placeholder renumbering (claim C6) -/

theorem natCharsAux_digits :
    ∀ (fuel n : Nat) (c : Char), c ∈ natCharsAux fuel n → c.isDigit := by
  intro fuel
  induction fuel with
  | zero => intro n c hc; simp [natCharsAux] at hc
  | succ f ih =>
      intro n c hc
      by_cases h : n < 10
      · simp only [natCharsAux, if_pos h, List.mem_singleton] at hc
        subst hc
        interval_cases n <;> decide
      · simp only [natCharsAux, if_neg h, List.mem_append, List.mem_singleton] at hc
        rcases hc with hc | hc
        · exact ih _ _ hc
        · subst hc
          have h10 : n % 10 < 10 := Nat.mod_lt _ (by omega)
          interval_cases h' : n % 10 <;> simp_all <;> decide

theorem natChars_digits (n : Nat) (c : Char) (hc : c ∈ natChars n) : c.isDigit :=
  natCharsAux_digits _ _ _ hc

theorem natChars_ne_nil (n : Nat) : natChars n ≠ [] := by
  simp only [natChars, natCharsAux]
  split
  · simp
  · simp

theorem isPrefixOf_getElem? {pat l : List Char} (h : pat.isPrefixOf l)
    (j : Nat) (hj : j < pat.length) : l[j]? = pat[j]? := by
  rw [List.isPrefixOf_iff_prefix] at h
  obtain ⟨r, hr⟩ := h
  rw [← hr, List.getElem?_append_left hj]

theorem noStart_of_no_dollar (l : List Char) (h : dollarChar ∉ l) : noStart l := by
  intro suffix m hm hpref
  have h0 : (l ++ suffix)[m]? = some dollarChar := by
    have := isPrefixOf_getElem? hpref 0 (by simp [nstr])
    rw [List.getElem?_drop] at this
    simpa [nstr] using this
  rw [List.getElem?_append_left hm] at h0
  exact h ((List.getElem?_eq_some.mp h0).2 ▸ List.getElem_mem (List.getElem?_eq_some.mp h0).1)

theorem noStart_append (a b : List Char) (ha : noStart a) (hb : noStart b) :
    noStart (a ++ b) := by
  intro suffix m hm hpref
  by_cases hma : m < a.length
  · exact ha (b ++ suffix) m hma (by simpa [List.append_assoc] using hpref)
  · have hm' : m = a.length + (m - a.length) := by omega
    rw [List.append_assoc, hm', List.drop_append] at hpref
    have : m - a.length < b.length := by
      rw [List.length_append] at hm
      omega
    exact hb suffix (m - a.length) this hpref

theorem noStart_numRepl (i : Nat) : noStart (numRepl i) := by
  intro suffix m hm hpref
  cases m with
  | zero =>
      have h2 : (numRepl i ++ suffix)[2]? = some 'N' := by
        have := isPrefixOf_getElem? hpref 2 (by simp [nstr])
        rw [List.getElem?_drop] at this
        simpa [nstr] using this
      obtain ⟨c, hc0, hcd⟩ : ∃ c, (natChars i)[0]? = some c ∧ c.isDigit := by
        cases hnc : natChars i with
        | nil => exact absurd hnc (natChars_ne_nil i)
        | cons c cs =>
            refine ⟨c, by simp, ?_⟩
            exact natChars_digits i c (by simp [hnc])
      have h2' : (numRepl i ++ suffix)[2]? = some c := by
        have hlt : (2 : Nat) < (numRepl i).length := by
          simp [numRepl]
        rw [List.getElem?_append_left hlt]
        simp only [numRepl, List.getElem?_cons_succ]
        rw [List.getElem?_append_left]
        · exact hc0
        · have := (List.getElem?_eq_some.mp hc0).1
          omega
      rw [h2] at h2'
      have : c = 'N' := by injection h2'.symm
      subst this
      exact absurd hcd (by decide)
  | succ m' =>
      have h0 : (numRepl i ++ suffix)[m' + 1]? = some dollarChar := by
        have := isPrefixOf_getElem? hpref 0 (by simp [nstr])
        rw [List.getElem?_drop] at this
        simpa [nstr] using this
      rw [List.getElem?_append_left hm] at h0
      have hmem : dollarChar ∈ lbraceChar :: (natChars i ++ [':']) := by
        have h0' : (lbraceChar :: (natChars i ++ [':']))[m']? = some dollarChar := by
          simpa [numRepl] using h0
        exact (List.getElem?_eq_some.mp h0').2 ▸
          List.getElem_mem (List.getElem?_eq_some.mp h0').1
      rcases List.mem_cons.mp hmem with h | h
      · exact absurd h (by decide)
      · rcases List.mem_append.mp h with h | h
        · exact absurd (natChars_digits i _ h) (by decide)
        · rcases List.mem_singleton.mp h with h
          exact absurd h (by decide)

theorem firstOccurAux_none (pat : List Char) :
    ∀ (s : List Char) (k0 : Nat), (∀ k, ¬ pat.isPrefixOf (s.drop k)) →
      firstOccurAux pat s k0 = none := by
  intro s
  induction s with
  | nil =>
      intro k0 h
      simp only [firstOccurAux]
      rw [if_neg (fun hc => h 0 (by simpa using hc))]
  | cons c rest ih =>
      intro k0 h
      simp only [firstOccurAux]
      rw [if_neg (fun hc => h 0 (by simpa using hc))]
      exact ih (k0 + 1) (fun k hc => h (k + 1) (by simpa using hc))

theorem firstOccurAux_spec (pat : List Char) :
    ∀ (s : List Char) (m k0 : Nat),
      (∀ k, k < m → ¬ pat.isPrefixOf (s.drop k)) →
      pat.isPrefixOf (s.drop m) →
      firstOccurAux pat s k0 = some (k0 + m) := by
  intro s
  induction s with
  | nil =>
      intro m k0 hlt hm
      cases m with
      | zero =>
          simp only [firstOccurAux]
          rw [if_pos (by simpa using hm)]
          simp
      | succ m' =>
          exact absurd (by simpa using hm) (by simpa using hlt 0 (by omega))
  | cons c rest ih =>
      intro m k0 hlt hm
      cases m with
      | zero =>
          simp only [firstOccurAux]
          rw [if_pos (by simpa using hm)]
          simp
      | succ m' =>
          simp only [firstOccurAux]
          rw [if_neg (by simpa using hlt 0 (by omega))]
          have := ih m' (k0 + 1) (fun k hk => by simpa using hlt (k + 1) (by omega))
            (by simpa using hm)
          rw [this]
          congr 1
          omega

theorem joinTail_length_ge (rest : List (List Char)) :
    rest.length ≤ (joinTail rest).length := by
  induction rest with
  | nil => simp [joinTail]
  | cons t ts ih =>
      simp only [joinTail, List.length_cons, List.length_append]
      have : (9 : Nat) ≤ nstr.length + t.length := by simp [nstr]
      omega

theorem renumber_go_spec :
    ∀ (rest : List (List Char)) (pre : List Char) (i fuel : Nat),
      noStart pre → (∀ t ∈ rest, dollarChar ∉ t) → rest.length ≤ fuel →
      renumber_snippet_go fuel i (pre ++ joinTail rest) = pre ++ indexedTail i rest := by
  intro rest
  induction rest with
  | nil =>
      intro pre i fuel hpre _ _
      simp only [joinTail, indexedTail, List.append_nil]
      cases fuel with
      | zero => rfl
      | succ f =>
          simp only [renumber_snippet_go]
          have hnone : firstOccur nstr pre = none := by
            apply firstOccurAux_none
            intro k
            by_cases hk : k < pre.length
            · have := hpre [] k hk
              simpa using this
            · rw [List.drop_eq_nil_of_le (by omega)]
              decide
          rw [hnone]
  | cons t rest' ih =>
      intro pre i fuel hpre hd hfuel
      cases fuel with
      | zero => simp at hfuel
      | succ f =>
          simp only [joinTail, indexedTail]
          have hfo : firstOccur nstr (pre ++ (nstr ++ t ++ joinTail rest')) =
              some pre.length := by
            unfold firstOccur
            have := firstOccurAux_spec nstr (pre ++ (nstr ++ t ++ joinTail rest'))
              pre.length 0
              (fun k hk => hpre (nstr ++ t ++ joinTail rest') k hk)
              (by
                rw [List.drop_left, List.append_assoc, List.isPrefixOf_iff_prefix]
                exact List.prefix_append nstr (t ++ joinTail rest'))
            simpa using this
          have htake : (pre ++ (nstr ++ t ++ joinTail rest')).take pre.length = pre :=
            List.take_left pre _
          have hdrop : (pre ++ (nstr ++ t ++ joinTail rest')).drop
              (pre.length + nstr.length) = t ++ joinTail rest' := by
            have hsplit : pre ++ (nstr ++ t ++ joinTail rest') =
                (pre ++ nstr) ++ (t ++ joinTail rest') := by
              simp [List.append_assoc]
            rw [hsplit, ← List.length_append pre nstr, List.drop_left]
          have hrepl : replaceFirst nstr (numRepl i)
              (pre ++ (nstr ++ t ++ joinTail rest')) =
              (pre ++ numRepl i ++ t) ++ joinTail rest' := by
            simp only [replaceFirst, hfo]
            rw [htake, hdrop]
            simp [List.append_assoc]
          have step : renumber_snippet_go (f + 1) i
              (pre ++ (nstr ++ t ++ joinTail rest')) =
              renumber_snippet_go f (i + 1) ((pre ++ numRepl i ++ t) ++ joinTail rest') := by
            simp only [renumber_snippet_go, hfo, hrepl]
          rw [step]
          have hpre' : noStart (pre ++ numRepl i ++ t) := by
            apply noStart_append
            · exact noStart_append pre (numRepl i) hpre (noStart_numRepl i)
            · exact noStart_of_no_dollar t (hd t (List.mem_cons_self t rest'))
          rw [ih (pre ++ numRepl i ++ t) (i + 1) f hpre'
            (fun u hu => hd u (List.mem_cons_of_mem _ hu)) (by simpa using hfuel)]
          simp [List.append_assoc]

/-- C6: for every rendered docstring containing N placeholder tokens —
dollar-free segments interleaved with `"${NUMBER:"` markers, whatever
label text follows each marker — the renumbering pass of `autodoc`
rewrites the markers to `"${1:"` ... `"${N:"` in left-to-right order of
occurrence, assigning each index of the contiguous sequence 1..N exactly
once. -/
theorem c6_renumber_assigns (segs : List (List Char)) (hne : segs ≠ [])
    (hd : ∀ seg ∈ segs, dollarChar ∉ seg) :
    renumber_snippet (joinNumber segs) = joinIndexed 1 segs := by
  cases segs with
  | nil => exact absurd rfl hne
  | cons s rest =>
      simp only [joinNumber, joinIndexed, renumber_snippet]
      apply renumber_go_spec rest s 1 _
        (noStart_of_no_dollar s (hd s (List.mem_cons_self s rest)))
        (fun t ht => hd t (List.mem_cons_of_mem _ ht))
      have := joinTail_length_ge rest
      rw [List.length_append]
      omega

/-- C6 witness: the renumbering theorem applied to a concrete docstring
with two placeholder tokens. -/
theorem c6_renumber_assigns_witness :
    renumber_snippet (joinNumber [['a'], ['T', rbraceChar, 'x'], ['D', rbraceChar]]) =
      joinIndexed 1 [['a'], ['T', rbraceChar, 'x'], ['D', rbraceChar]] :=
  c6_renumber_assigns [['a'], ['T', rbraceChar, 'x'], ['D', rbraceChar]]
    (by decide) (by decide)

/-! ## Helper lemmas: scope resolution (claim C1) -/

theorem find?_of_all_fail {α : Type} [DecidableEq α] (x : α) (p : α → Bool) :
    ∀ l : List α, x ∈ l → p x = true →
      (∀ d ∈ l, d ≠ x → p d = false) → l.find? p = some x := by
  intro l
  induction l with
  | nil => intro h; simp at h
  | cons a rest ih =>
      intro hmem hpx hall
      by_cases ha : a = x
      · subst ha
        simp [List.find?, hpx]
      · have hpa : p a = false := hall a (List.mem_cons_self _ _) ha
        simp only [List.find?, hpa]
        apply ih
        · rcases List.mem_cons.mp hmem with h | h
          · exact absurd h.symm ha
          · exact h
        · exact hpx
        · exact fun d hd => hall d (List.mem_cons_of_mem _ hd)

theorem find_preceding_loop_nil (v : View) (region : Region) :
    find_preceding_loop v region [] = .ok none := rfl

theorem find_preceding_loop_cons (v : View) (region d : Region) (rest : List Region) :
    find_preceding_loop v region (d :: rest) =
      (match dedent (v.substr ⟨(v.lineR d).a, (v.lineR region).b⟩) with
       | [] => Except.error "NotImplementedError: Shouldn't be here?"
       | c :: _ =>
           if (if d.a = 0 ∧ d.b = 0 then false
               else if isPyWs c then true
               else ((List.splitOn '\n'
                   (dedent (v.substr ⟨(v.lineR d).a, (v.lineR region).b⟩))).tail).any
                 (fun l => match l with | [] => false | x :: _ => ! isPyWs x))
           then find_preceding_loop v region rest
           else Except.ok (some d)) := rfl

theorem find_preceding_loop_spec (v : View) (region : Region) :
    ∀ (l : List Region) (r : Option Region),
      find_preceding_loop v region l = .ok r →
      r = l.find? (fun d => ! c1_claimed_closure v region d) := by
  intro l
  induction l with
  | nil =>
      intro r h
      rw [find_preceding_loop_nil] at h
      cases h
      rfl
  | cons d rest ih =>
      intro r h
      rw [find_preceding_loop_cons] at h
      cases hb : dedent (v.substr ⟨(v.lineR d).a, (v.lineR region).b⟩) with
      | nil =>
          rw [hb] at h
          have h' : (Except.error "NotImplementedError: Shouldn't be here?" :
              Except String (Option Region)) = Except.ok r := h
          cases h'
      | cons c bs =>
          rw [hb] at h
          have h' : (if (if d.a = 0 ∧ d.b = 0 then false
                else if isPyWs c then true
                else ((List.splitOn '\n' (c :: bs)).tail).any
                  (fun l => match l with | [] => false | x :: _ => ! isPyWs x)) = true
              then find_preceding_loop v region rest
              else Except.ok (some d)) = Except.ok r := h
          have hcl : c1_claimed_closure v region d =
              (if d.a = 0 ∧ d.b = 0 then false
               else if isPyWs c then true
               else ((List.splitOn '\n' (c :: bs)).tail).any
                 (fun l => match l with | [] => false | x :: _ => ! isPyWs x)) := by
            simp only [c1_claimed_closure, hb]
            by_cases hm : d.a = 0 ∧ d.b = 0
            · have hd0 : d = ⟨0, 0⟩ := by
                cases d
                simp only [Region.mk.injEq]
                exact ⟨hm.1, hm.2⟩
              rw [if_pos hd0, if_pos hm]
            · have hd0 : ¬ d = ⟨0, 0⟩ := by
                intro he
                subst he
                exact hm ⟨rfl, rfl⟩
              rw [if_neg hd0, if_neg hm]
              by_cases hw : isPyWs c
              · simp [hw]
              · simp [hw]
          by_cases hz : (if d.a = 0 ∧ d.b = 0 then false
               else if isPyWs c then true
               else ((List.splitOn '\n' (c :: bs)).tail).any
                 (fun l => match l with | [] => false | x :: _ => ! isPyWs x)) = true
          · rw [if_pos hz] at h'
            rw [List.find?_cons_of_neg rest (by rw [hcl, hz]; decide)]
            exact ih r h'
          · have hz' := Bool.of_not_eq_true hz
            rw [if_neg hz] at h'
            cases h'
            rw [List.find?_cons_of_pos rest (by rw [hcl, hz']; decide)]

/-- C1: whenever `find_preceding_declaration` returns (rather than
raising on an empty block), its result is exactly what the claim
describes: among declarations starting at or before the cursor, scanned
nearest-to-farthest, the first candidate not flagged as a closure — a
candidate being flagged exactly when its dedented block through the
cursor's line begins with whitespace or has a later non-empty line
starting with non-whitespace, the synthetic module declaration never
being flagged; and when the module declaration is among the candidates
and every other candidate is flagged, the module region is the result. -/
theorem c1_scope_resolution (v : View) (defs : List Region) (region : Region)
    (r : Option Region)
    (hok : find_preceding_declaration v defs region = .ok r) :
    r = c1_claimed_resolve v defs region ∧
    (Region.mk 0 0 ∈ defs → 0 ≤ region.a →
      (∀ d ∈ defs.filter (fun d => d.a ≤ region.a), d ≠ ⟨0, 0⟩ →
        c1_claimed_closure v region d = true) →
      r = some ⟨0, 0⟩) := by
  have h1 : r = c1_claimed_resolve v defs region :=
    find_preceding_loop_spec v region _ r hok
  refine ⟨h1, fun hmem hreg hall => ?_⟩
  rw [h1]
  unfold c1_claimed_resolve
  apply find?_of_all_fail (⟨0, 0⟩ : Region)
  · exact List.mem_reverse.mpr (List.mem_filter.mpr ⟨hmem, by simpa using hreg⟩)
  · simp [c1_claimed_closure]
  · intro d hd hne
    have hd' := List.mem_reverse.mp hd
    simp [hall d hd' hne]

/-- C1 witness: the scope-resolution theorem on a buffer with function
`b` nested inside function `a` and the cursor inside `b`. -/
theorem c1_scope_resolution_witness :
    some (⟨9, 21⟩ : Region) =
      c1_claimed_resolve (simpleView "def a():\n    def b():\n        pass\n")
        [⟨0, 0⟩, ⟨0, 8⟩, ⟨9, 21⟩] ⟨30, 30⟩ ∧
    (Region.mk 0 0 ∈ [(⟨0, 0⟩ : Region), ⟨0, 8⟩, ⟨9, 21⟩] →
      0 ≤ (⟨30, 30⟩ : Region).a →
      (∀ d ∈ [(⟨0, 0⟩ : Region), ⟨0, 8⟩, ⟨9, 21⟩].filter
          (fun d => d.a ≤ (⟨30, 30⟩ : Region).a),
        d ≠ ⟨0, 0⟩ →
        c1_claimed_closure (simpleView "def a():\n    def b():\n        pass\n")
          ⟨30, 30⟩ d = true) →
      some (⟨9, 21⟩ : Region) = some ⟨0, 0⟩) :=
  c1_scope_resolution (simpleView "def a():\n    def b():\n        pass\n")
    [⟨0, 0⟩, ⟨0, 8⟩, ⟨9, 21⟩] ⟨30, 30⟩ (some ⟨9, 21⟩) rfl

/-! ## Helper lemmas: indentation (claim C5) -/

theorem take_sub_dropWhile (p : Char → Bool) :
    ∀ l : List Char, l.take (l.length - (l.dropWhile p).length) = l.takeWhile p := by
  intro l
  induction l with
  | nil => rfl
  | cons c l ih =>
      by_cases hp : p c
      · have hle : (l.dropWhile p).length ≤ l.length :=
          (List.dropWhile_sublist p).length_le
        simp only [List.dropWhile_cons, hp, if_true, List.takeWhile_cons, List.length_cons]
        have harith : l.length + 1 - (l.dropWhile p).length =
            (l.length - (l.dropWhile p).length) + 1 := by omega
        rw [harith, List.take_succ_cons, ih]
      · simp only [List.dropWhile_cons, hp, if_false, List.takeWhile_cons, List.length_cons]
        simp

/-- C5 counterexample: on the buffer `"def f(): x\n    y"` (body text on
the declaration line, then an indented line) the code reports
`has_indented_body = true`, while the claim's condition — the level of
the first non-whitespace character after the header itself — is false,
since that character is the `x` on the header's own line. -/
theorem c5_counterexample :
    (get_indentation (simpleView "def f(): x\n    y") ⟨0, 8⟩ false).2.2 = true ∧
    c5_claimed_has_indented_body (simpleView "def f(): x\n    y") ⟨0, 8⟩ = false :=
  ⟨rfl, rfl⟩

/-- C5 (amended): for every declaration, `has_indented_body` is true
exactly when the indentation level of the first non-whitespace character
after the end of the header's line exceeds the header's level, in which
case that character's line indent text is returned verbatim as the body
indent; otherwise the body indent is the header indent text plus one
unit, the unit being the header indent sliced to
`len(headerIndentText) / headerLevel`, or — at header level zero — the
empty string for a module-level declaration and four spaces otherwise. -/
theorem c5_indentation (v : View) (target : Region) (module_decl : Bool) :
    ((get_indentation v target module_decl).2.1,
     (get_indentation v target module_decl).2.2) =
      c5_spec_get_indentation v target module_decl := by
  simp only [get_indentation, c5_spec_get_indentation]
  by_cases h : v.indentLevel target.a <
      v.indentLevel (v.findNonWs ((v.linePt target.b).b)).a
  · simp only [if_pos h]
    rw [take_sub_dropWhile]
  · simp only [if_neg h]

/-! ## Claims C7, C9, C10: get_docstring -/

/-- C7: when `get_docstring` detects an opening quote marker after a
declaration but the buffer holds no matching unescaped terminator of the
same style later, it returns the all-`None` result — reporting the
declaration's end line and leaving the buffer unmutated (the returned
view is the input view). -/
theorem c7_malformed_docstring (v : View) (hasEdit : Bool)
    (target0 target : Region) (ss : Int) (ncr : Region) (nc : List Char)
    (style : List Char) (plen : Nat)
    (hadj : gd_adjust v target0 (decide (v.row target0.b = 0)) = .ok target)
    (hscan : gd_scan v target (v.row target0.b) (decide (v.row target0.b = 0)) =
      .ok (ss, ncr, nc))
    (hstyle : gd_style nc = (some style, plen))
    (hpos : 0 ≤ ncr.a)
    (hend : v.findUnescaped style (ncr.a + (plen : Int) + (style.length : Int)) =
      Region.notFound) :
    get_docstring v hasEdit target0 =
      .ok ⟨v, some (v.row target0.b), none, none, none, none⟩ := by
  simp only [get_docstring, hadj, hscan, hstyle, bind, Except.bind, pure, Except.pure]
  rw [hend]
  rw [if_pos (show Region.notFound.a < ncr.a by
    simp only [Region.notFound]
    omega)]

/-- C7 witness: the malformed-docstring theorem on a buffer whose
docstring opener `'''` never closes. -/
theorem c7_malformed_docstring_witness :
    get_docstring (simpleView "def f():\n    '''abc") false ⟨0, 8⟩ =
      .ok ⟨simpleView "def f():\n    '''abc", some 0, none, none, none, none⟩ :=
  c7_malformed_docstring (simpleView "def f():\n    '''abc") false ⟨0, 8⟩ ⟨0, 8⟩
    8 ⟨13, 17⟩ "'''a".data "'''".data 0 rfl rfl rfl (by decide) rfl

/-- C9: whenever `get_docstring` inserts a new docstring stub (no style
was detected and an edit object is present), the stub's delimiters are
the triple double quote on both ends — whatever quote styles appear
elsewhere in the buffer, and with no style configuration consulted at
all — and the returned inner region excludes exactly three characters on
each side of the relocated sentinel region. -/
theorem c9_stub_quotes (v : View) (target0 target : Region)
    (ss : Int) (ncr : Region) (nc : List Char) (plen : Nat)
    (hadj : gd_adjust v target0 (decide (v.row target0.b = 0)) = .ok target)
    (hscan : gd_scan v target (v.row target0.b) (decide (v.row target0.b = 0)) =
      .ok (ss, ncr, nc))
    (hstyle : gd_style nc = (none, plen)) :
    ∃ (a b : Int) (pfx sfx : List Char),
      get_docstring v true target0 =
        (let stub := pfx ++
            (get_indentation v target (decide (v.row target0.b = 0))).2.1 ++
            tripleDouble ++ sentinelChars ++ tripleDouble ++ sfx
         let v' := v.replace ⟨a, b⟩ stub
         let w := v'.findLiteral (tripleDouble ++ sentinelChars ++ tripleDouble) target.b
         .ok ⟨v', none, some w, some ⟨w.a + (3 : Int), w.b - (3 : Int)⟩,
           some tripleDouble, some true⟩) := by
  simp only [get_docstring, hadj, hscan, hstyle, bind, Except.bind, pure, Except.pure]
  rw [if_neg (show ¬¬True by simp)]
  exact ⟨_, _, _, _, rfl⟩

/-- C10: with no edit object, `get_docstring` mutates nothing; when no
docstring follows the declaration it returns the three regions as `None`
with the new flag `False`, while the malformed case returns all four as
`None` — the two outcomes differing exactly in the fourth result. -/
theorem c10_readonly_results (v₁ : View) (t₁ tt₁ : Region) (ss₁ : Int)
    (ncr₁ : Region) (nc₁ : List Char) (plen₁ : Nat)
    (v₂ : View) (t₂ tt₂ : Region) (ss₂ : Int) (ncr₂ : Region) (nc₂ : List Char)
    (style₂ : List Char) (plen₂ : Nat)
    (hadj₁ : gd_adjust v₁ t₁ (decide (v₁.row t₁.b = 0)) = .ok tt₁)
    (hscan₁ : gd_scan v₁ tt₁ (v₁.row t₁.b) (decide (v₁.row t₁.b = 0)) =
      .ok (ss₁, ncr₁, nc₁))
    (hstyle₁ : gd_style nc₁ = (none, plen₁))
    (hadj₂ : gd_adjust v₂ t₂ (decide (v₂.row t₂.b = 0)) = .ok tt₂)
    (hscan₂ : gd_scan v₂ tt₂ (v₂.row t₂.b) (decide (v₂.row t₂.b = 0)) =
      .ok (ss₂, ncr₂, nc₂))
    (hstyle₂ : gd_style nc₂ = (some style₂, plen₂))
    (hpos₂ : 0 ≤ ncr₂.a)
    (hend₂ : v₂.findUnescaped style₂
      (ncr₂.a + (plen₂ : Int) + (style₂.length : Int)) = Region.notFound) :
    get_docstring v₁ false t₁ = .ok ⟨v₁, none, none, none, none, some false⟩ ∧
    get_docstring v₂ false t₂ =
      .ok ⟨v₂, some (v₂.row t₂.b), none, none, none, none⟩ ∧
    (some false : Option Bool) ≠ none := by
  refine ⟨?_, ?_, by decide⟩
  · simp only [get_docstring, hadj₁, hscan₁, hstyle₁, bind, Except.bind, pure,
      Except.pure]
    rw [if_pos (show ¬ (false = true) by simp)]
  · simp only [get_docstring, hadj₂, hscan₂, hstyle₂, bind, Except.bind, pure,
      Except.pure]
    rw [hend₂]
    rw [if_pos (show Region.notFound.a < ncr₂.a by
      simp only [Region.notFound]
      omega)]

/-- C9 witness: the stub-quoting theorem on a declaration with an
indented body and no docstring. -/
theorem c9_stub_quotes_witness :
    ∃ (a b : Int) (pfx sfx : List Char),
      get_docstring (simpleView "def f():\n    pass\n") true ⟨0, 8⟩ =
        (let stub := pfx ++
            (get_indentation (simpleView "def f():\n    pass\n") ⟨0, 8⟩
              (decide (View.row (simpleView "def f():\n    pass\n")
                (⟨0, 8⟩ : Region).b = 0))).2.1 ++
            tripleDouble ++ sentinelChars ++ tripleDouble ++ sfx
         let v' := (simpleView "def f():\n    pass\n").replace ⟨a, b⟩ stub
         let w := v'.findLiteral (tripleDouble ++ sentinelChars ++ tripleDouble)
           (⟨0, 8⟩ : Region).b
         .ok ⟨v', none, some w, some ⟨w.a + (3 : Int), w.b - (3 : Int)⟩,
           some tripleDouble, some true⟩) :=
  c9_stub_quotes (simpleView "def f():\n    pass\n") ⟨0, 8⟩ ⟨0, 8⟩ 8 ⟨13, 17⟩
    "pass".data 0 rfl rfl rfl

/-- C10 witness: the read-only theorem on a declaration with no
docstring and on one with an unterminated docstring. -/
theorem c10_readonly_results_witness :
    get_docstring (simpleView "def f():\n    pass\n") false ⟨0, 8⟩ =
      .ok ⟨simpleView "def f():\n    pass\n", none, none, none, none, some false⟩ ∧
    get_docstring (simpleView "def f():\n    '''abc") false ⟨0, 8⟩ =
      .ok ⟨simpleView "def f():\n    '''abc", some 0, none, none, none, none⟩ ∧
    (some false : Option Bool) ≠ none :=
  c10_readonly_results (simpleView "def f():\n    pass\n") ⟨0, 8⟩ ⟨0, 8⟩ 8
    ⟨13, 17⟩ "pass".data 0
    (simpleView "def f():\n    '''abc") ⟨0, 8⟩ ⟨0, 8⟩ 8 ⟨13, 17⟩ "'''a".data
    "'''".data 0
    rfl rfl rfl rfl rfl rfl (by decide) rfl

/-! ## Claim C8: auto style detection -/

theorem styleScan_ok (v : View) (detect : List Char → Option DocStyle) :
    ∀ l : List Region,
      (∀ d ∈ l, ∃ out, get_docstring v false d = .ok out) →
      styleScan v detect l = .ok (l.findSome? (fun d =>
        match get_docstring v false d with
        | .ok out =>
            match out.docstr with
            | some r => detect (v.substr r)
            | none => none
        | .error _ => none)) := by
  intro l
  induction l with
  | nil => intro _; rfl
  | cons d rest ih =>
      intro hok
      obtain ⟨out, ho⟩ := hok d (List.mem_cons_self d rest)
      rw [List.findSome?_cons]
      simp only [styleScan, ho, bind, Except.bind]
      cases hd : out.docstr with
      | none =>
          simp only [hd]
          exact ih (fun d' hd' => hok d' (List.mem_cons_of_mem _ hd'))
      | some r =>
          simp only [hd]
          cases hdet : detect (v.substr r) with
          | none =>
              exact ih (fun d' hd' => hok d' (List.mem_cons_of_mem _ hd'))
          | some t => rfl

set_option maxHeartbeats 2000000 in
/-- C8: in auto style mode (the configured style name, lowercased, starts
with "auto"), `get_desired_style` scans the buffer's docstrings in buffer
order — module first, then the scanner's declarations — and returns the
style of the first docstring the detector's grammar recognizes, falling
back to the configured default style when none matches. -/
theorem c8_auto_style (v : View) (s : Settings)
    (detect : List Char → Option DocStyle) (defaultKw : String) (st : DocStyle)
    (hauto : pyStartsWith (pyLower s.style) "auto" = true)
    (hlook : STYLE_LOOKUP
      (match (pySplitUnderscore (pyLower s.style))[1]? with
       | some x => x
       | none => defaultKw) = some st)
    (hok : ∀ d ∈ find_all_declarations v true,
      ∃ out, get_docstring v false d = .ok out) :
    get_desired_style v s detect defaultKw = .ok (c8_claimed_auto v detect st) := by
  simp only [get_desired_style]
  rw [if_pos hauto]
  rw [styleScan_ok v detect _ hok]
  simp only [bind, Except.bind, c8_claimed_auto]
  cases hfs : (find_all_declarations v true).findSome? (fun d =>
      match get_docstring v false d with
      | .ok out =>
          match out.docstr with
          | some r => detect (v.substr r)
          | none => none
      | .error _ => none) with
  | some t => rfl
  | none =>
      simp only [hlook]
      rfl

/-- C8 witness: auto-detection over a buffer with no docstrings and a
detector that recognizes nothing falls back to the configured default
(`auto_numpy` → numpy). -/
theorem c8_auto_style_witness :
    get_desired_style (simpleView "x = 1\n") ⟨"auto_numpy"⟩ (fun _ => none) "google" =
      .ok (c8_claimed_auto (simpleView "x = 1\n") (fun _ => none) DocStyle.numpy) :=
  c8_auto_style (simpleView "x = 1\n") ⟨"auto_numpy"⟩ (fun _ => none) "google"
    DocStyle.numpy rfl rfl
    (by
      intro d hd
      have hde : d = ⟨0, 0⟩ := by
        simpa [find_all_declarations, simpleView] using hd
      subst hde
      exact ⟨_, rfl⟩)
